import Mathlib

/-
Verification of the redforks/logging core: a shallow embedding of
`asyncLogWriter` (async_log_writer.go) and `fileLogWriter` (the rotating
file writer) together with theorems checking the specification's claims.

Byte buffers and file names are modelled as `List Char` (Go `[]byte` /
`string`); the filesystem is an association list from names to file
contents; machine integers (`int32`, `int64`, `int`) are modelled as `Int`.
Sequential executions of the concurrent code are modelled by explicit
state passing; the one genuinely concurrent loop (the compare-and-swap
reset of the loss counter) is modelled by a step function driven by the
schedule of counter values the loop observes.
-/

namespace Logging

/-- Byte strings / file names, as in Go `[]byte` and `string`. -/
abbrev Str := List Char

/-- Byte-wise lexicographic comparison, as Go `sort.Strings` uses. -/
def lexLe : Str → Str → Bool
  | [], _ => true
  | _ :: _, [] => false
  | a :: as, b :: bs =>
    if a < b then true
    else if b < a then false
    else lexLe as bs

/-- The ordering relation underlying `sort.Strings`. -/
def LeS (a b : Str) : Prop := lexLe a b = true

instance : DecidableRel LeS := fun _ _ => inferInstanceAs (Decidable (_ = true))

/- ---------------------------------------------------------------------
   asyncLogWriter (src/async_log_writer.go)
   --------------------------------------------------------------------- -/

/-- State of one `asyncLogWriter` instance together with its channel and
the log of everything that reached the inner writer `w.w`.
`failed` is the `int32` loss counter (-1 = disabled), `closed` the
`int32` closed flag, `chClosed` records that `close(w.ch)` ran, `exited`
that the `run` goroutine closed `exitCh`. -/
structure AWState where
  cap : Nat
  queue : List Str
  failed : Int
  closed : Bool
  chClosed : Bool
  exited : Bool
  sinkLog : List Str
deriving DecidableEq

/-- `NewAsyncLogWriter`: fresh writer with a 500-slot channel. -/
def newAsyncLogWriter : AWState :=
  { cap := 500, queue := [], failed := 0, closed := false,
    chClosed := false, exited := false, sinkLog := [] }

/-- The synthetic message `fmt.Sprintf("Too many logs, %d logs lost", failed)`. -/
def lostNotice (k : Int) : Str :=
  "Too many logs, ".toList ++ (toString k).toList ++ " logs lost".toList

/-- `asyncLogWriter.Write`, executed sequentially (no interference between
the atomic operations of one call, so the compare-and-swap succeeds on its
first attempt).  `sinkOk` tells which buffers the inner writer accepts;
the recursion for the loss notice is bounded by `fuel` (`none` = fuel ran
out, which never happens from fuel 2 up). -/
def write (sinkOk : Str → Bool) : Nat → AWState → Str → Option (AWState × Nat × Option Unit)
  | 0, _, _ => none
  | fuel + 1, s, p =>
    if s.closed then
      -- closed: `return w.w.Write(p)`
      if sinkOk p then some ({ s with sinkLog := s.sinkLog ++ [p] }, p.length, none)
      else some (s, 0, some ())
    else
      let n := p.length
      let failed := s.failed
      if failed = -1 then some (s, n, none)
      else if s.queue.length < s.cap then
        -- `case w.ch <- buf:`
        let s1 := { s with queue := s.queue ++ [p] }
        if failed > 0 then
          -- sequential run: the CAS `failed -> 0` succeeds immediately
          let s2 := { s1 with failed := 0 }
          match write sinkOk fuel s2 (lostNotice failed) with
          | none => none
          | some (s3, _, e) =>
            if e.isSome then
              -- `w.handleInnerWriteError(err)`: disable and drain
              some ({ s3 with failed := -1, queue := [] }, n, none)
            else some (s3, n, none)
        else some (s1, n, none)
      else
        -- `default: atomic.AddInt32(&w.failed, 1)`
        some ({ s with failed := s.failed + 1 }, n, none)

/-- Iterate `Write` over a list of buffers, collecting each call's
`(n, err)` result. -/
def writeAll (sinkOk : Str → Bool) : AWState → List Str → Option (AWState × List (Nat × Option Unit))
  | s, [] => some (s, [])
  | s, p :: rest =>
    match write sinkOk 2 s p with
    | none => none
    | some (s1, n, e) =>
      match writeAll sinkOk s1 rest with
      | none => none
      | some (s2, rs) => some (s2, (n, e) :: rs)

/-- The body of the `run` goroutine's loop over the buffered records:
returns the final sink log and whether every write succeeded
(`false` = the loop hit the first inner-writer error). -/
def drainAux (sinkOk : Str → Bool) : List Str → List Str → (List Str × Bool)
  | [], log => (log, true)
  | b :: rest, log =>
    if sinkOk b then drainAux sinkOk rest (log ++ [b]) else (log, false)

/-- `asyncLogWriter.run` executed until the goroutine exits: on the first
inner-writer error it runs `handleInnerWriteError` (set `failed` to -1 and
drain the channel) and breaks; with no error it exits only once the
channel is closed (`none` = it would block waiting for more records). -/
def runDrain (sinkOk : Str → Bool) (s : AWState) : Option AWState :=
  let r := drainAux sinkOk s.queue s.sinkLog
  if r.2 then
    if s.chClosed then some { s with queue := [], sinkLog := r.1, exited := true }
    else none
  else some { s with queue := [], sinkLog := r.1, failed := -1, exited := true }

/-- The first statement of `asyncLogWriter.Close`:
`atomic.CompareAndSwapInt32(&w.closed, 0, 1)` — returns the new state and
whether the swap fired. -/
def closeCas (s : AWState) : AWState × Bool :=
  if s.closed then (s, false) else ({ s with closed := true }, true)

/-- `asyncLogWriter.Close`: the compare-and-swap on `closed`, then
`close(w.ch)`, then `<-w.exitCh` (the drain goroutine finishes the
remaining records and exits). -/
def close (sinkOk : Str → Bool) (s : AWState) : AWState :=
  let r := closeCas s
  if r.2 then
    let s2 := { r.1 with chClosed := true }
    (runDrain sinkOk s2).getD s2
  else r.1

/- ---------------------------------------------------------------------
   The compare-and-swap reset loop of `asyncLogWriter.Write`, under
   concurrent interference.
   --------------------------------------------------------------------- -/

/-- The reset loop of `asyncLogWriter.Write` as written:

    for !atomic.CompareAndSwapInt32(&w.failed, failed, 0) \x7b
        failed := atomic.LoadInt32(&w.failed)
        if failed == -1 \x7b return \x7d
    \x7d

The inner `failed :=` declares a fresh variable shadowing the outer one,
so every CAS attempt keeps the original expected value `orig`.  The
schedule lists the counter values observed by the successive atomic
operations (alternating CAS attempts and loads).  `some true` = the CAS
succeeded (counter reset to 0, notice emitted), `some false` = the loop
returned because the counter was observed as -1, `none` = the loop was
still spinning when the schedule ran out. -/
def casResetGo (orig : Int) : List Int → Option Bool
  | [] => none
  | c :: rest =>
    if c = orig then some true
    else
      match rest with
      | [] => none
      | c2 :: rest2 => if c2 = -1 then some false else casResetGo orig rest2

/-- Modelled from the spec: the reset loop as the specification describes
it — "attempt to reset it to 0 via compare-and-swap (retry if another
thread changed it concurrently, abort the reset silently if it became
DISABLED)".  A failed compare-and-swap retries with the freshly reloaded
counter value as the new expected value, so the loop is lock-free: it
makes progress whenever the counter stops changing. -/
def casResetSpec (expected : Int) : List Int → Option Bool
  | [] => none
  | c :: rest =>
    if c = expected then some true
    else
      match rest with
      | [] => none
      | c2 :: rest2 => if c2 = -1 then some false else casResetSpec c2 rest2

/- ---------------------------------------------------------------------
   fileLogWriter (rotating file writer)
   --------------------------------------------------------------------- -/

/-- Contents of one file: a plain (log or archive) file, a finished gzip
file holding the compressed image of `s`, or a partially written /
unfinalized gzip file. -/
inductive FileData where
  | plain (s : Str)
  | gz (s : Str)
  | part
deriving DecidableEq

/-- The directory: an association list from file names to contents. -/
abbrev FS := List (Str × FileData)

def fsLookup : FS → Str → Option FileData
  | [], _ => none
  | (m, c) :: rest, n => if m = n then some c else fsLookup rest n

/-- `os.Remove` / deletion of every entry named `n`. -/
def fsRemove : FS → Str → FS
  | [], _ => []
  | (m, c) :: rest, n =>
    if m = n then fsRemove rest n else (m, c) :: fsRemove rest n

/-- Create or overwrite the file named `n`. -/
def fsSet (fs : FS) (n : Str) (c : FileData) : FS := fsRemove fs n ++ [(n, c)]

def fsNames (fs : FS) : List Str := fs.map (fun e => e.1)

/-- Helper for `filepath.Ext`: scan the reversed name, collecting
characters until the last dot (the extension starts there); a path
separator or the start of the name means no extension. -/
def extFromRev : List Char → List Char → List Char
  | _, [] => []
  | acc, c :: rest =>
    if c = '.' then '.' :: acc
    else if c = '/' then []
    else extFromRev (c :: acc) rest

/-- `filepath.Ext`: the suffix beginning at the final dot of the last
path element, `""` if there is none. -/
def filepathExt (s : Str) : Str := extFromRev [] s.reverse

/-- `fileLogWriter.splitLogFilename`: split into (name without extension,
extension). -/
def splitLogFilename (logfilename : Str) : Str × Str :=
  let ext := filepathExt logfilename
  (logfilename.take (logfilename.length - ext.length), ext)

/-- Whether `name` matches the glob pattern `pre*post` (the `*` of
`filepath.Glob` matches any run of non-separator characters). -/
def globMatch (pre post name : Str) : Bool :=
  decide (pre.length + post.length ≤ name.length) &&
  decide (name.take pre.length = pre) &&
  decide (name.drop (name.length - post.length) = post) &&
  !((name.drop pre.length).take (name.length - pre.length - post.length)).contains '/'

/-- `fileLogWriter.getBackFiles`: glob `base-*ext suffix` over the
directory, then `sort.Strings`. -/
def getBackFiles (fs : FS) (logfilename suffix : Str) : List Str :=
  let base := (splitLogFilename logfilename).1
  let ext := (splitLogFilename logfilename).2
  List.insertionSort LeS ((fsNames fs).filter (globMatch (base ++ ['-']) (ext ++ suffix)))

/-- `fileLogWriter.getCompressedFiles`. -/
def getCompressedFiles (fs : FS) (logfilename : Str) : List Str :=
  getBackFiles fs logfilename ".gz".toList

/-- `fileLogWriter.getUncompressedFiles`. -/
def getUncompressedFiles (fs : FS) (logfilename : Str) : List Str :=
  getBackFiles fs logfilename []

/-- `fileLogWriter.cleanOldBackupFiles`: delete the first
`len(files) - maxFiles` of the sorted compressed archives. -/
def cleanOldBackupFiles (maxFiles : Int) (fs : FS) (logfilename : Str) : FS :=
  let files := getCompressedFiles fs logfilename
  (files.take ((files.length - maxFiles).toNat)).foldl fsRemove fs

/-- Success/failure of each fallible step inside `fileLogWriter.compress`:
`os.Create`, `os.Open`, `io.Copy`, `gzip.Writer.Close`, `os.Remove`. -/
structure CompressOutcome where
  createOk : Bool
  openOk : Bool
  copyOk : Bool
  closeOk : Bool
  removeOk : Bool
deriving DecidableEq

def allOk : CompressOutcome :=
  { createOk := true, openOk := true, copyOk := true, closeOk := true, removeOk := true }

/-- `fileLogWriter.compress`: create `logFile + ".gz"`, open the source,
stream-copy it into the gzip writer, finalize the gzip writer, and only
then remove the source; the first failing step returns its error. -/
def compress (oc : CompressOutcome) (fs : FS) (logFile : Str) : FS × Option Unit :=
  let gzfile := logFile ++ ".gz".toList
  if oc.createOk = false then (fs, some ())
  else
    let fs1 := fsSet fs gzfile .part
    if oc.openOk = false then (fs1, some ())
    else
      match fsLookup fs1 logFile with
      | some (.plain c) =>
        if oc.copyOk = false then (fs1, some ())
        else if oc.closeOk = false then (fs1, some ())
        else
          let fs2 := fsSet fs1 gzfile (.gz c)
          if oc.removeOk = false then (fs2, some ())
          else (fsRemove fs2 logFile, none)
      | _ => (fs1, some ())

/-- `fileLogWriter.recoverPartialCompressFiles`: list the
rotated-but-uncompressed files and run one compression task per file
(`oc` gives each task's step outcomes); also returns the list of files a
task was launched for. -/
def recoverCompressFiles (oc : Str → CompressOutcome) (fs : FS) (path : Str) : FS × List Str :=
  let unCompressed := getUncompressedFiles fs path
  (unCompressed.foldl (fun acc f => (compress (oc f) acc f).1) fs, unCompressed)

/-- `openLogFile`: open for append, creating the file when absent. -/
def openLogFile (fs : FS) (path : Str) : FS :=
  match fsLookup fs path with
  | some _ => fs
  | none => fsSet fs path (.plain [])

/-- `NewFileLogWriter`: open the log file, then scan for uncompressed
archives and launch one compression task per file. -/
def newFileLogWriter (oc : Str → CompressOutcome) (fs : FS) (path : Str) : FS × List Str :=
  recoverCompressFiles oc (openLogFile fs path) path

/-- `fileLogWriter.newBackupFilename` for one already-formatted clock
reading `ts` (the result of `hal.Now().Format("2006-01-02-150405")`). -/
def newBackupFilename (ts : Str) (logfilename : Str) : Str :=
  let ext := filepathExt logfilename
  logfilename.take (logfilename.length - ext.length) ++ ['-'] ++ ts ++ ext

/-- State of one `fileLogWriter`: the directory, the number of clock
readings taken so far, and the archive names handed to spawned
compression tasks. -/
structure FWState where
  fs : FS
  tick : Nat
  pendingCompress : List Str
deriving DecidableEq

/-- `fileLogWriter.Write` on the happy I/O path: append, stat, and when
`size >= maxLen` rotate — close, rename the active file to
`newBackupFilename` (computed a second time from a second clock reading,
exactly as the source does), reopen a fresh file, and spawn a compression
task for `bakFile` (the name from the first clock reading).
`clk t` is the formatted timestamp of the `t`-th `hal.Now()` call. -/
def fileWrite (clk : Nat → Str) (maxLen : Int) (path : Str) (s : FWState) (p : Str) :
    FWState × Nat × Option Unit :=
  match fsLookup s.fs path with
  | some (.plain c) =>
    let c2 := c ++ p
    let fs1 := fsSet s.fs path (.plain c2)
    if (c2.length : Int) ≥ maxLen then
      let bakFile := newBackupFilename (clk s.tick) path
      let renamed := newBackupFilename (clk (s.tick + 1)) path
      let fs2 := fsSet (fsRemove fs1 path) renamed (.plain c2)
      let fs3 := fsSet fs2 path (.plain [])
      ({ fs := fs3, tick := s.tick + 2, pendingCompress := s.pendingCompress ++ [bakFile] },
       p.length, none)
    else ({ s with fs := fs1 }, p.length, none)
  | _ => (s, 0, some ())

/-- `fileLogWriter.fileSize` (via `f.Stat()`): size of the active file. -/
def fileSize (fs : FS) (path : Str) : Option Nat :=
  match fsLookup fs path with
  | some (.plain c) => some c.length
  | _ => none

/- ---------------------------------------------------------------------
   Helper lemmas
   --------------------------------------------------------------------- -/

theorem write_step_enqueue_zero (sinkOk : Str → Bool) (fuel : Nat) (s : AWState) (p : Str)
    (hc : s.closed = false) (hf : s.failed = 0) (hq : s.queue.length < s.cap) :
    write sinkOk (fuel + 1) s p = some ({ s with queue := s.queue ++ [p] }, p.length, none) := by
  simp [write, hc, hf, hq]

theorem write_step_drop (sinkOk : Str → Bool) (fuel : Nat) (s : AWState) (p : Str)
    (hc : s.closed = false) (hf : 0 ≤ s.failed) (hq : ¬ s.queue.length < s.cap) :
    write sinkOk (fuel + 1) s p = some ({ s with failed := s.failed + 1 }, p.length, none) := by
  have hf' : ¬ s.failed = -1 := by omega
  simp [write, hc, hf', hq]

theorem write_step_disabled (sinkOk : Str → Bool) (fuel : Nat) (s : AWState) (p : Str)
    (hc : s.closed = false) (hf : s.failed = -1) :
    write sinkOk (fuel + 1) s p = some (s, p.length, none) := by
  simp [write, hc, hf]

theorem writeAll_fill (sinkOk : Str → Bool) (msgs : List Str) :
    ∀ s : AWState, s.closed = false → s.failed = 0 → s.queue.length + msgs.length ≤ s.cap →
    writeAll sinkOk s msgs
      = some ({ s with queue := s.queue ++ msgs },
              msgs.map (fun m => (m.length, (none : Option Unit)))) := by
  induction msgs with
  | nil => intro s hc hf hq; simp [writeAll]
  | cons p rest ih =>
    intro s hc hf hq
    have hq1 : s.queue.length < s.cap := by simp at hq; omega
    have step := write_step_enqueue_zero sinkOk 1 s p hc hf hq1
    have ihs := ih { s with queue := s.queue ++ [p] } (by simp [hc]) (by simp [hf])
      (by simp at hq ⊢; omega)
    simp [writeAll, step, ihs]

theorem writeAll_full_drops (sinkOk : Str → Bool) (msgs : List Str) :
    ∀ s : AWState, s.closed = false → 0 ≤ s.failed → s.queue.length = s.cap →
    writeAll sinkOk s msgs
      = some ({ s with failed := s.failed + msgs.length },
              msgs.map (fun m => (m.length, (none : Option Unit)))) := by
  induction msgs with
  | nil => intro s hc hf hq; simp [writeAll]
  | cons p rest ih =>
    intro s hc hf hq
    have hq1 : ¬ s.queue.length < s.cap := by omega
    have step := write_step_drop sinkOk 1 s p hc hf hq1
    have ihs := ih { s with failed := s.failed + 1 } (by simp [hc]) (by simp; omega)
      (by simp [hq])
    simp [writeAll, step, ihs]
    omega

theorem writeAll_append_some (sinkOk : Str → Bool) (xs ys : List Str) :
    ∀ (s s1 : AWState) (rs : List (Nat × Option Unit)),
      writeAll sinkOk s xs = some (s1, rs) →
      ∀ (s2 : AWState) (rs2 : List (Nat × Option Unit)),
        writeAll sinkOk s1 ys = some (s2, rs2) →
        writeAll sinkOk s (xs ++ ys) = some (s2, rs ++ rs2) := by
  induction xs with
  | nil =>
    intro s s1 rs h1 s2 rs2 h2
    simp [writeAll] at h1
    obtain ⟨rfl, rfl⟩ := h1
    simpa using h2
  | cons p rest ih =>
    intro s s1 rs h1 s2 rs2 h2
    cases hw : write sinkOk 2 s p with
    | none => simp [writeAll, hw] at h1
    | some r =>
      obtain ⟨sa, n, e⟩ := r
      cases hrest : writeAll sinkOk sa rest with
      | none => simp [writeAll, hw, hrest] at h1
      | some r2 =>
        obtain ⟨sb, rsb⟩ := r2
        simp [writeAll, hw, hrest] at h1
        obtain ⟨rfl, rfl⟩ := h1
        have := ih sa sb rsb hrest s2 rs2 h2
        simp [writeAll, hw, this]

/- ---------------------------------------------------------------------
   C1
   --------------------------------------------------------------------- -/

/-- C1: for an open, healthy writer with queue capacity 500 and a stalled
drain task, issuing `500 + k` Write calls enqueues the first 500 buffers
and drops the remaining `k`; afterwards the loss counter equals `k`, and
every one of these calls returned `(len(data), nil)`. -/
theorem asyncWriter_overflow_drops (sinkOk : Str → Bool) (msgs extra : List Str)
    (h : msgs.length = 500) :
    writeAll sinkOk newAsyncLogWriter (msgs ++ extra)
      = some ({ cap := 500, queue := msgs, failed := (extra.length : Int), closed := false,
                chClosed := false, exited := false, sinkLog := [] },
              (msgs ++ extra).map (fun m => (m.length, (none : Option Unit)))) := by
  have hfill := writeAll_fill sinkOk msgs newAsyncLogWriter rfl rfl
    (by simp [newAsyncLogWriter, h])
  have hfill' : writeAll sinkOk newAsyncLogWriter msgs
      = some ({ cap := 500, queue := msgs, failed := 0, closed := false,
                chClosed := false, exited := false, sinkLog := [] },
              msgs.map (fun m => (m.length, (none : Option Unit)))) := by
    simpa [newAsyncLogWriter] using hfill
  have hdrop := writeAll_full_drops sinkOk extra
    { cap := 500, queue := msgs, failed := 0, closed := false,
      chClosed := false, exited := false, sinkLog := [] } rfl (by simp) (by simp [h])
  have hdrop' : writeAll sinkOk
      { cap := 500, queue := msgs, failed := 0, closed := false,
        chClosed := false, exited := false, sinkLog := [] } extra
      = some ({ cap := 500, queue := msgs, failed := (extra.length : Int), closed := false,
                chClosed := false, exited := false, sinkLog := [] },
              extra.map (fun m => (m.length, (none : Option Unit)))) := by
    simpa using hdrop
  rw [List.map_append]
  exact writeAll_append_some sinkOk msgs extra newAsyncLogWriter _ _ hfill' _ _ hdrop'

/-- C1 witness: 502 writes against the fresh writer, drain stalled. -/
theorem asyncWriter_overflow_drops_witness :
    writeAll (fun _ => true) newAsyncLogWriter (List.replicate 500 (['a'] : Str) ++ [['b'], ['c']])
      = some ({ cap := 500, queue := List.replicate 500 (['a'] : Str),
                failed := (([['b'], ['c']] : List Str).length : Int), closed := false,
                chClosed := false, exited := false, sinkLog := [] },
              (List.replicate 500 (['a'] : Str) ++ [['b'], ['c']]).map
                (fun m => (m.length, (none : Option Unit)))) :=
  asyncWriter_overflow_drops (fun _ => true) (List.replicate 500 (['a'] : Str))
    [['b'], ['c']] (List.length_replicate 500 ['a'])

/- ---------------------------------------------------------------------
   C2
   --------------------------------------------------------------------- -/

/-- C2: when the loss counter holds `k > 0` and an enqueue succeeds, the
call emits exactly one synthetic record reading "Too many logs, k logs
lost" with the prior exact count `k`, after resetting the counter to 0 —
so a drop of the notice itself is counted against the fresh counter
(yielding 1, not k+1) — and the call still returns `(len(data), nil)`:
the notice's own failure is never surfaced. -/
theorem asyncWriter_loss_notice (sinkOk : Str → Bool) (s : AWState) (p : Str)
    (hc : s.closed = false) (hf : 0 < s.failed) (hq : s.queue.length < s.cap) :
    write sinkOk 2 s p
      = some (if s.queue.length + 1 < s.cap
              then { s with queue := s.queue ++ [p, lostNotice s.failed], failed := 0 }
              else { s with queue := s.queue ++ [p], failed := 1 },
              p.length, none) := by
  have hf' : ¬ s.failed = -1 := by omega
  have hf2 : s.failed > 0 := hf
  by_cases hroom : s.queue.length + 1 < s.cap
  · have inner := write_step_enqueue_zero sinkOk 0 { s with queue := s.queue ++ [p], failed := 0 }
      (lostNotice s.failed) (by simp [hc]) (by simp) (by simp [hroom])
    simp [write, hc, hf', hq, hf2, inner, if_pos hroom]
  · have hfull : ({ s with queue := s.queue ++ [p], failed := (0 : Int) } : AWState).queue.length
        = s.cap := by simp; omega
    have inner := write_step_drop sinkOk 0 { s with queue := s.queue ++ [p], failed := 0 }
      (lostNotice s.failed) (by simp [hc]) (by simp) (by simp; omega)
    simp [write, hc, hf', hq, hf2, inner, if_neg hroom]

/-- C2 witness: counter at 2, room for the buffer and the notice. -/
theorem asyncWriter_loss_notice_witness :
    write (fun _ => true) 2
      { cap := 3, queue := [['x']], failed := 2, closed := false,
        chClosed := false, exited := false, sinkLog := [] } ['p']
      = some (if (1 : Nat) + 1 < 3
              then { cap := 3, queue := [['x'], ['p'], lostNotice 2], failed := 0, closed := false,
                     chClosed := false, exited := false, sinkLog := [] }
              else { cap := 3, queue := [['x'], ['p']], failed := 1, closed := false,
                     chClosed := false, exited := false, sinkLog := [] },
              1, none) := by
  have h := asyncWriter_loss_notice (fun _ => true)
    { cap := 3, queue := [['x']], failed := 2, closed := false,
      chClosed := false, exited := false, sinkLog := [] } ['p']
    rfl (by decide) (by decide)
  simpa using h

/- ---------------------------------------------------------------------
   C3
   --------------------------------------------------------------------- -/

/-- C3: on the first inner-writer error inside the drain task, the writer
sets the loss counter to the terminal -1 (DISABLED), discards every
remaining queued record without writing it, and the task terminates; on
the still-open writer every subsequent Write then returns
`(len(data), nil)` with the state — in particular the sink log —
untouched. -/
theorem asyncWriter_disable_on_sink_error (sinkOk : Str → Bool) (s : AWState)
    (good rest : List Str) (bad : Str)
    (hq : s.queue = good ++ bad :: rest)
    (hg : ∀ b ∈ good, sinkOk b = true) (hb : sinkOk bad = false)
    (hc : s.closed = false) :
    runDrain sinkOk s
      = some { s with queue := [], sinkLog := s.sinkLog ++ good, failed := -1, exited := true }
    ∧ ∀ p : Str,
        write sinkOk 2
          { s with queue := [], sinkLog := s.sinkLog ++ good, failed := -1, exited := true } p
        = some ({ s with queue := [], sinkLog := s.sinkLog ++ good, failed := -1, exited := true },
                p.length, none) := by
  have hdrain : ∀ (g : List Str) (log : List Str), (∀ b ∈ g, sinkOk b = true) →
      drainAux sinkOk (g ++ bad :: rest) log = (log ++ g, false) := by
    intro g
    induction g with
    | nil => intro log _; simp [drainAux, hb]
    | cons x xs ih =>
      intro log hgx
      have hx : sinkOk x = true := hgx x (by simp)
      have := ih (log ++ [x]) (fun b hbmem => hgx b (by simp [hbmem]))
      simp [drainAux, hx, this]
  constructor
  · simp [runDrain, hq, hdrain good s.sinkLog hg]
  · intro p
    exact write_step_disabled sinkOk 1 _ p (by simp [hc]) (by simp)

/-- C3 witness: queue `[a, b, c]` with the sink failing on `b`. -/
theorem asyncWriter_disable_on_sink_error_witness :
    runDrain (fun b => decide (b ≠ ['b']))
      { cap := 5, queue := [['a'], ['b'], ['c']], failed := 0, closed := false,
        chClosed := false, exited := false, sinkLog := [] }
      = some { cap := 5, queue := [], failed := -1, closed := false,
               chClosed := false, exited := true, sinkLog := [['a']] }
    ∧ write (fun b => decide (b ≠ ['b'])) 2
        { cap := 5, queue := [], failed := -1, closed := false,
          chClosed := false, exited := true, sinkLog := [['a']] } ['z']
      = some ({ cap := 5, queue := [], failed := -1, closed := false,
                chClosed := false, exited := true, sinkLog := [['a']] }, 1, none) := by
  have h := asyncWriter_disable_on_sink_error (fun b => decide (b ≠ ['b']))
    { cap := 5, queue := [['a'], ['b'], ['c']], failed := 0, closed := false,
      chClosed := false, exited := false, sinkLog := [] }
    [['a']] [['c']] ['b'] rfl (by decide) (by decide) rfl
  obtain ⟨h1, h2⟩ := h
  exact ⟨by simpa using h1, by simpa using h2 ['z']⟩

/- ---------------------------------------------------------------------
   C9
   --------------------------------------------------------------------- -/

/-- C9: the reset loop as written does NOT implement
retry-on-concurrent-change: the reload inside the loop shadows the loop
variable, so every CAS attempt keeps the stale expected value.  If
another thread changed the counter from 1 to 2 and the counter then stays
at 2, the loop spins forever (the producer blocks) — for every schedule
length.  The spec's loop (retry with the reloaded value) terminates on
the very same interference. -/
theorem casReset_shadowed_spin :
    (∀ n : Nat, casResetGo 1 (List.replicate n 2) = none)
    ∧ casResetGo 1 [2, 2, 2] = none
    ∧ casResetSpec 1 [2, 2, 2] = some true := by
  refine ⟨?_, by decide, by decide⟩
  intro n
  induction n using Nat.twoStepInduction with
  | zero => decide
  | one => decide
  | more n ih _ =>
    have h2 : List.replicate (n + 2) (2 : Int) = 2 :: 2 :: List.replicate n 2 := by
      simp [List.replicate_succ]
    rw [h2]
    simpa [casResetGo] using ih

/- ---------------------------------------------------------------------
   C8
   --------------------------------------------------------------------- -/

theorem drainAux_all_ok (sinkOk : Str → Bool) (q : List Str) :
    ∀ log : List Str, (∀ b ∈ q, sinkOk b = true) →
      drainAux sinkOk q log = (log ++ q, true) := by
  induction q with
  | nil => intro log _; simp [drainAux]
  | cons x xs ih =>
    intro log hq
    have hx : sinkOk x = true := hq x (by simp)
    have := ih (log ++ [x]) (fun b hb => hq b (by simp [hb]))
    simp [drainAux, hx, this]

/-- C8 counterexample: on a not-yet-closed writer with one record still
queued, the very first step of `Close` — the compare-and-swap on the
closed flag — already sets the flag while the queued record is
unprocessed and the drain task has not terminated.  The claim's order
(close the queue, wait for the drain task, only then set the flag) is
false for this writer. -/
theorem close_flag_set_before_drain :
    (closeCas { cap := 500, queue := [['a']], failed := 0, closed := false,
                chClosed := false, exited := false, sinkLog := [] }).2 = true
    ∧ (closeCas { cap := 500, queue := [['a']], failed := 0, closed := false,
                  chClosed := false, exited := false, sinkLog := [] }).1.closed = true
    ∧ (closeCas { cap := 500, queue := [['a']], failed := 0, closed := false,
                  chClosed := false, exited := false, sinkLog := [] }).1.queue = [['a']]
    ∧ (closeCas { cap := 500, queue := [['a']], failed := 0, closed := false,
                  chClosed := false, exited := false, sinkLog := [] }).1.exited = false := by
  decide

/-- C8 amended: `Close()` first sets the closed flag — the same atomic
compare-and-swap that guards idempotence — then closes the queue to new
entries, then waits for the drain task to finish processing all remaining
queued entries and terminate.  Only the first caller performs the
transition: on an already-closed writer `Close` is a no-op, so `Close` is
idempotent. -/
theorem close_sets_flag_then_drains (sinkOk : Str → Bool) (s : AWState)
    (hc : s.closed = false) (hok : ∀ b ∈ s.queue, sinkOk b = true) :
    close sinkOk s
      = { s with
            closed := true,
            chClosed := true,
            queue := [],
            sinkLog := s.sinkLog ++ s.queue,
            exited := true }
    ∧ (∀ t : AWState, t.closed = true → close sinkOk t = t)
    ∧ close sinkOk (close sinkOk s) = close sinkOk s := by
  have hid : ∀ t : AWState, t.closed = true → close sinkOk t = t := by
    intro t ht
    simp [close, closeCas, ht]
  have hfst : close sinkOk s
      = { s with
            closed := true,
            chClosed := true,
            queue := [],
            sinkLog := s.sinkLog ++ s.queue,
            exited := true } := by
    have hdrain := drainAux_all_ok sinkOk s.queue s.sinkLog hok
    simp [close, closeCas, hc, runDrain, hdrain]
  refine ⟨hfst, hid, ?_⟩
  rw [hfst, hid _ rfl]

/-- C8 amended witness: a writer with two queued records. -/
theorem close_sets_flag_then_drains_witness :
    close (fun _ => true)
      { cap := 500, queue := [['a'], ['b']], failed := 0, closed := false,
        chClosed := false, exited := false, sinkLog := [] }
      = { cap := 500, queue := [], failed := 0, closed := true,
          chClosed := true, exited := true, sinkLog := [['a'], ['b']] }
    ∧ close (fun _ => true)
        (close (fun _ => true)
          { cap := 500, queue := [['a'], ['b']], failed := 0, closed := false,
            chClosed := false, exited := false, sinkLog := [] })
      = close (fun _ => true)
          { cap := 500, queue := [['a'], ['b']], failed := 0, closed := false,
            chClosed := false, exited := false, sinkLog := [] } := by
  have h := close_sets_flag_then_drains (fun _ => true)
    { cap := 500, queue := [['a'], ['b']], failed := 0, closed := false,
      chClosed := false, exited := false, sinkLog := [] } rfl (by decide)
  exact ⟨by simpa using h.1, h.2.2⟩

/- ---------------------------------------------------------------------
   Filesystem helper lemmas
   --------------------------------------------------------------------- -/

theorem fsLookup_append (xs ys : FS) (m : Str) :
    fsLookup (xs ++ ys) m
      = match fsLookup xs m with
        | some d => some d
        | none => fsLookup ys m := by
  induction xs with
  | nil => simp [fsLookup]
  | cons e rest ih =>
    obtain ⟨k, v⟩ := e
    by_cases hk : k = m <;> simp [fsLookup, hk, ih]

theorem fsLookup_fsRemove (fs : FS) (n m : Str) :
    fsLookup (fsRemove fs n) m = if m = n then none else fsLookup fs m := by
  induction fs with
  | nil => simp [fsRemove, fsLookup]
  | cons e rest ih =>
    obtain ⟨k, v⟩ := e
    by_cases hk : k = n <;> by_cases hm : m = n <;>
      by_cases hkm : k = m <;>
      simp_all [fsRemove, fsLookup]

theorem fsLookup_fsSet (fs : FS) (n : Str) (d : FileData) (m : Str) :
    fsLookup (fsSet fs n d) m = if m = n then some d else fsLookup fs m := by
  unfold fsSet
  rw [fsLookup_append, fsLookup_fsRemove]
  by_cases hm : m = n
  · simp [fsLookup, hm]
  · have hnm : ¬ n = m := fun h => hm h.symm
    cases fsLookup fs m <;> simp [fsLookup, hm, hnm]

theorem extFromRev_length_le (l : List Char) :
    ∀ acc : List Char, (extFromRev acc l).length ≤ acc.length + l.length := by
  induction l with
  | nil => intro acc; simp [extFromRev]
  | cons ch rest ih =>
    intro acc
    by_cases h1 : ch = '.'
    · simp [extFromRev, h1]
    · by_cases h2 : ch = '/'
      · simp [extFromRev, h1, h2]
      · have := ih (ch :: acc)
        simp [extFromRev, h1, h2] at this ⊢
        omega

theorem filepathExt_length_le (s : Str) : (filepathExt s).length ≤ s.length := by
  have h := extFromRev_length_le s.reverse []
  simpa [filepathExt] using h

theorem newBackupFilename_length (ts f : Str) :
    (newBackupFilename ts f).length = f.length + 1 + ts.length := by
  have h := filepathExt_length_le f
  simp only [newBackupFilename, List.length_append, List.length_take, List.length_cons,
    List.length_nil]
  omega

theorem newBackupFilename_ne (ts f : Str) : newBackupFilename ts f ≠ f := by
  intro h
  have := congrArg List.length h
  rw [newBackupFilename_length] at this
  omega

theorem gz_append_ne (l : Str) : l ++ ".gz".toList ≠ l := by
  intro h
  have := congrArg List.length h
  simp at this

/- ---------------------------------------------------------------------
   C4
   --------------------------------------------------------------------- -/

/-- C4: `fileLogWriter.Write` on the happy path returns `(len(p), nil)`;
when the post-append size reaches `maxLen` exactly one rotation runs —
afterwards the active file at `path` has size 0, the appended content
lives under the timestamped archive name the rename produced, and exactly
one compression task was spawned; when the cumulative size stays below
`maxLen`, the state changes only by the append (no archive, no task). -/
theorem fileWriter_rotation (clk : Nat → Str) (maxLen : Int) (path p c : Str) (s : FWState)
    (h : fsLookup s.fs path = some (.plain c)) :
    (fileWrite clk maxLen path s p).2 = (p.length, none)
    ∧ (((c ++ p).length : Int) ≥ maxLen →
        fileSize (fileWrite clk maxLen path s p).1.fs path = some 0
        ∧ fsLookup (fileWrite clk maxLen path s p).1.fs
            (newBackupFilename (clk (s.tick + 1)) path) = some (.plain (c ++ p))
        ∧ (fileWrite clk maxLen path s p).1.pendingCompress
            = s.pendingCompress ++ [newBackupFilename (clk s.tick) path])
    ∧ (((c ++ p).length : Int) < maxLen →
        (fileWrite clk maxLen path s p).1 = { s with fs := fsSet s.fs path (.plain (c ++ p)) }) := by
  by_cases hge : ((c ++ p).length : Int) ≥ maxLen
  · have hge' : maxLen ≤ (c.length : Int) + (p.length : Int) := by
      simp [List.length_append] at hge; omega
    have hne := newBackupFilename_ne (clk (s.tick + 1)) path
    refine ⟨?_, fun _ => ⟨?_, ?_, ?_⟩, fun hlt => absurd hge (by omega)⟩ <;>
      simp [fileWrite, h, hge', fileSize, fsLookup_fsSet, hne]
  · have hlt2 : ¬ maxLen ≤ (c.length : Int) + (p.length : Int) := by
      simp [List.length_append] at hge; omega
    refine ⟨?_, fun hge2 => absurd hge2 hge, fun _ => ?_⟩ <;>
      simp [fileWrite, h, hlt2]

/-- C4 witness: one byte in the file, a two-byte write crossing
`maxLen = 2` rotates and leaves the active file at size 0. -/
theorem fileWriter_rotation_witness :
    fileSize (fileWrite (fun _ => "2026-01-01-120000".toList) 2 "app.log".toList
        { fs := [("app.log".toList, FileData.plain "x".toList)], tick := 0, pendingCompress := [] }
        "yz".toList).1.fs "app.log".toList = some 0
    ∧ (fileWrite (fun _ => "2026-01-01-120000".toList) 2 "app.log".toList
        { fs := [("app.log".toList, FileData.plain "x".toList)], tick := 0, pendingCompress := [] }
        "yz".toList).2 = (2, none) := by
  have h := fileWriter_rotation (fun _ => "2026-01-01-120000".toList) 2 "app.log".toList
    "yz".toList "x".toList
    { fs := [("app.log".toList, FileData.plain "x".toList)], tick := 0, pendingCompress := [] }
    (by decide)
  exact ⟨(h.2.1 (by decide)).1, h.1⟩

/- ---------------------------------------------------------------------
   C5
   --------------------------------------------------------------------- -/

/-- C5: `compress` deletes the source archive exactly when every step —
creating the `.gz` destination, opening the source, stream-copying into
the gzip writer, finalizing it, removing the source — succeeded, and then
the destination holds the complete compressed image; on a failure at any
step the call reports the error and the source archive is left in place
(only a possibly-partial destination may exist), so the startup recovery
retry still has its input. -/
theorem compress_source_safety (oc : CompressOutcome) (fs : FS) (logFile c : Str)
    (h : fsLookup fs logFile = some (.plain c)) :
    (fsLookup (compress oc fs logFile).1 logFile = none ↔ oc = allOk)
    ∧ (oc = allOk →
        (compress oc fs logFile).2 = none
        ∧ fsLookup (compress oc fs logFile).1 (logFile ++ ".gz".toList) = some (.gz c))
    ∧ (oc ≠ allOk →
        (compress oc fs logFile).2 = some ()
        ∧ fsLookup (compress oc fs logFile).1 logFile = some (.plain c)) := by
  have h1 : ¬ logFile = logFile ++ ".gz".toList := fun heq => gz_append_ne logFile heq.symm
  have h2 : ¬ logFile ++ ".gz".toList = logFile := gz_append_ne logFile
  obtain ⟨b1, b2, b3, b4, b5⟩ := oc
  cases b1 <;> cases b2 <;> cases b3 <;> cases b4 <;> cases b5 <;>
    simp [compress, allOk, fsLookup_fsSet, fsLookup_fsRemove, h, h1, h2]

/-- C5 witness: all steps succeed on a one-file directory. -/
theorem compress_source_safety_witness :
    fsLookup (compress allOk [("app-1.log".toList, FileData.plain "data".toList)]
        "app-1.log".toList).1 "app-1.log".toList = none
    ∧ fsLookup (compress allOk [("app-1.log".toList, FileData.plain "data".toList)]
        "app-1.log".toList).1 ("app-1.log".toList ++ ".gz".toList) = some (.gz "data".toList) := by
  have h := compress_source_safety allOk [("app-1.log".toList, FileData.plain "data".toList)]
    "app-1.log".toList "data".toList (by decide)
  exact ⟨h.1.mpr rfl, (h.2.1 rfl).2⟩

/- ---------------------------------------------------------------------
   C10
   --------------------------------------------------------------------- -/

/-- C10: the backup filename is computed from two separate clock reads —
`bakFile` from the first, the rename target from a second inline call —
and the two names are NOT always equal: when the two reads format
differently (a second boundary passes between them), the rename produces
the second name while the spawned compression task is handed the first,
which names no existing file.  Evaluated at such a pair of clock
values. -/
theorem rotation_compress_name_mismatch :
    (fileWrite (fun t => if t = 0 then "2026-01-01-120000".toList else "2026-01-01-120001".toList)
        2 "app.log".toList
        { fs := [("app.log".toList, FileData.plain "x".toList)], tick := 0, pendingCompress := [] }
        "yz".toList).1.pendingCompress
      = [newBackupFilename ("2026-01-01-120000".toList) "app.log".toList]
    ∧ fsLookup (fileWrite
        (fun t => if t = 0 then "2026-01-01-120000".toList else "2026-01-01-120001".toList)
        2 "app.log".toList
        { fs := [("app.log".toList, FileData.plain "x".toList)], tick := 0, pendingCompress := [] }
        "yz".toList).1.fs (newBackupFilename ("2026-01-01-120000".toList) "app.log".toList)
      = none
    ∧ fsLookup (fileWrite
        (fun t => if t = 0 then "2026-01-01-120000".toList else "2026-01-01-120001".toList)
        2 "app.log".toList
        { fs := [("app.log".toList, FileData.plain "x".toList)], tick := 0, pendingCompress := [] }
        "yz".toList).1.fs (newBackupFilename ("2026-01-01-120001".toList) "app.log".toList)
      = some (.plain "xyz".toList)
    ∧ newBackupFilename ("2026-01-01-120000".toList) "app.log".toList
        ≠ newBackupFilename ("2026-01-01-120001".toList) "app.log".toList := by
  decide

/- ---------------------------------------------------------------------
   C7
   --------------------------------------------------------------------- -/

/-- C7: at construction, after opening the target path, the directory
scan finds the uncompressed archive `name` (matching `base-*ext` and
lacking `.gz`) and launches one compression task for it; with the task's
steps succeeding, the archive is compressed and the uncompressed original
removed — before any Write call. -/
theorem newFileLogWriter_recovers (oc : Str → CompressOutcome) (fs : FS) (path name c : Str)
    (hactive : (fsLookup fs path).isSome)
    (hname : fsLookup fs name = some (.plain c))
    (hscan : getUncompressedFiles fs path = [name])
    (hoc : oc name = allOk) :
    (newFileLogWriter oc fs path).2 = [name]
    ∧ fsLookup (newFileLogWriter oc fs path).1 name = none
    ∧ fsLookup (newFileLogWriter oc fs path).1 (name ++ ".gz".toList) = some (.gz c) := by
  have h1 : ¬ name = name ++ ".gz".toList := fun heq => gz_append_ne name heq.symm
  have h2 : ¬ name ++ ".gz".toList = name := gz_append_ne name
  obtain ⟨d, hd⟩ := Option.isSome_iff_exists.mp hactive
  have hopen : openLogFile fs path = fs := by simp [openLogFile, hd]
  have hrec : newFileLogWriter oc fs path = ((compress (oc name) fs name).1, [name]) := by
    simp [newFileLogWriter, recoverCompressFiles, hopen, hscan]
  rw [hrec]
  simp [compress, hoc, allOk, fsLookup_fsSet, fsLookup_fsRemove, hname, h1, h2, hscan]

/-- C7 witness: a directory holding the active log and one uncompressed
archive; construction compresses it. -/
theorem newFileLogWriter_recovers_witness :
    (newFileLogWriter (fun _ => allOk)
        [("app.log".toList, FileData.plain []), ("app-2022.log".toList, FileData.plain "zz".toList)]
        "app.log".toList).2 = ["app-2022.log".toList]
    ∧ fsLookup (newFileLogWriter (fun _ => allOk)
        [("app.log".toList, FileData.plain []), ("app-2022.log".toList, FileData.plain "zz".toList)]
        "app.log".toList).1 "app-2022.log".toList = none
    ∧ fsLookup (newFileLogWriter (fun _ => allOk)
        [("app.log".toList, FileData.plain []), ("app-2022.log".toList, FileData.plain "zz".toList)]
        "app.log".toList).1 ("app-2022.log".toList ++ ".gz".toList) = some (.gz "zz".toList) :=
  newFileLogWriter_recovers (fun _ => allOk)
    [("app.log".toList, FileData.plain []), ("app-2022.log".toList, FileData.plain "zz".toList)]
    "app.log".toList "app-2022.log".toList "zz".toList
    (by decide) (by decide) (by decide) rfl

/- ---------------------------------------------------------------------
   Order lemmas for the byte-wise string comparison
   --------------------------------------------------------------------- -/

theorem lexLe_total (a : Str) : ∀ b : Str, lexLe a b = true ∨ lexLe b a = true := by
  induction a with
  | nil => intro b; left; rfl
  | cons x xs ih =>
    intro b
    cases b with
    | nil => right; rfl
    | cons y ys =>
      rcases lt_trichotomy x y with h | h | h
      · left; simp [lexLe, h]
      · subst h
        rcases ih ys with h2 | h2
        · left; simp [lexLe, h2]
        · right; simp [lexLe, h2]
      · right; simp [lexLe, h]

theorem lexLe_trans (a : Str) : ∀ b c : Str,
    lexLe a b = true → lexLe b c = true → lexLe a c = true := by
  induction a with
  | nil => intro b c _ _; rfl
  | cons x xs ih =>
    intro b c h1 h2
    cases b with
    | nil => simp [lexLe] at h1
    | cons y ys =>
      cases c with
      | nil => simp [lexLe] at h2
      | cons z zs =>
        rcases lt_trichotomy x y with hxy | hxy | hxy
        · rcases lt_trichotomy y z with hyz | hyz | hyz
          · simp [lexLe, lt_trans hxy hyz]
          · subst hyz; simp [lexLe, hxy]
          · exfalso; simp [lexLe, asymm hyz, hyz] at h2
        · subst hxy
          simp [lexLe] at h1
          rcases lt_trichotomy x z with hxz | hxz | hxz
          · simp [lexLe, hxz]
          · subst hxz
            simp [lexLe] at h2 ⊢
            exact ih ys zs h1 h2
          · exfalso; simp [lexLe, asymm hxz, hxz] at h2
        · exfalso; simp [lexLe, asymm hxy, hxy] at h1

theorem lexLe_antisymm (a : Str) : ∀ b : Str,
    lexLe a b = true → lexLe b a = true → a = b := by
  induction a with
  | nil =>
    intro b _ h2
    cases b with
    | nil => rfl
    | cons y ys => simp [lexLe] at h2
  | cons x xs ih =>
    intro b h1 h2
    cases b with
    | nil => simp [lexLe] at h1
    | cons y ys =>
      rcases lt_trichotomy x y with h | h | h
      · exfalso; simp [lexLe, asymm h, h] at h2
      · subst h
        simp [lexLe] at h1 h2
        rw [ih ys h1 h2]
      · exfalso; simp [lexLe, asymm h, h] at h1

/- ---------------------------------------------------------------------
   C6
   --------------------------------------------------------------------- -/

theorem fsNames_fsRemove (fs : FS) (n : Str) :
    fsNames (fsRemove fs n) = (fsNames fs).filter (fun x => decide (x ≠ n)) := by
  induction fs with
  | nil => simp [fsRemove, fsNames]
  | cons e rest ih =>
    obtain ⟨k, v⟩ := e
    by_cases hk : k = n
    · have h1 : fsRemove ((k, v) :: rest) n = fsRemove rest n := by simp [fsRemove, hk]
      have h2 : fsNames ((k, v) :: rest) = k :: fsNames rest := rfl
      rw [h1, ih, h2, List.filter_cons]
      simp [hk]
    · have h1 : fsRemove ((k, v) :: rest) n = (k, v) :: fsRemove rest n := by simp [fsRemove, hk]
      have h2 : fsNames ((k, v) :: rest) = k :: fsNames rest := rfl
      have h3 : fsNames ((k, v) :: fsRemove rest n) = k :: fsNames (fsRemove rest n) := rfl
      rw [h1, h3, ih, h2, List.filter_cons]
      simp [hk]

theorem fsNames_foldl_fsRemove (rm : List Str) : ∀ fs : FS,
    fsNames (rm.foldl fsRemove fs) = (fsNames fs).filter (fun x => decide (x ∉ rm)) := by
  induction rm with
  | nil => intro fs; simp
  | cons a t ih =>
    intro fs
    rw [List.foldl_cons, ih (fsRemove fs a), fsNames_fsRemove, List.filter_filter]
    apply List.filter_congr
    intro x _
    by_cases hxa : x = a <;> by_cases hxt : x ∈ t <;> simp [hxa, hxt]

/-- C6: each pruning pass lists the compressed archives for the base
path, sorts them ascending by name (chronological order under the
timestamp naming), and deletes from the front until at most `maxFiles`
remain: the surviving compressed archives are exactly the final
`maxFiles` elements — the greatest names, i.e. the most recently
created archives. -/
theorem pruneKeepsNewest (fs : FS) (path : Str) (maxFiles : Int)
    (hnd : (fsNames fs).Nodup) :
    getCompressedFiles (cleanOldBackupFiles maxFiles fs path) path
      = (getCompressedFiles fs path).drop
          (((getCompressedFiles fs path).length : Int) - maxFiles).toNat := by
  classical
  haveI instTot : IsTotal Str LeS := ⟨fun a b => lexLe_total a b⟩
  haveI instTrans : IsTrans Str LeS := ⟨fun a b c => lexLe_trans a b c⟩
  haveI instAnti : IsAntisymm Str LeS := ⟨fun a b => lexLe_antisymm a b⟩
  have hgc : ∀ g : FS, getCompressedFiles g path
      = List.insertionSort LeS ((fsNames g).filter
          (globMatch ((splitLogFilename path).1 ++ ['-'])
            ((splitLogFilename path).2 ++ ".gz".toList))) := fun g => rfl
  rw [hgc]
  set pr := (splitLogFilename path).1 ++ ['-'] with hpr
  set po := (splitLogFilename path).2 ++ ".gz".toList with hpo
  set L := (fsNames fs).filter (globMatch pr po) with hLdef
  set files := List.insertionSort LeS L with hfilesdef
  set d := (((files.length : Int) - maxFiles)).toNat with hd
  set q : Str → Bool := fun x => decide (x ∉ files.take d) with hq
  have hperm : files.Perm L := List.perm_insertionSort LeS L
  have hLnd : L.Nodup := List.Nodup.filter _ hnd
  have hfnd : files.Nodup := hperm.symm.nodup hLnd
  have hsorted : List.Sorted LeS files := List.sorted_insertionSort LeS L
  have hclean : cleanOldBackupFiles maxFiles fs path = (files.take d).foldl fsRemove fs := rfl
  have hstep : (fsNames (cleanOldBackupFiles maxFiles fs path)).filter (globMatch pr po)
      = L.filter q := by
    rw [hclean, fsNames_foldl_fsRemove, List.filter_comm]
  have hdisj : ∀ x ∈ files.drop d, x ∉ files.take d := by
    have hsplit : files.take d ++ files.drop d = files := List.take_append_drop d files
    have hdis := List.disjoint_of_nodup_append (by rw [hsplit]; exact hfnd)
    intro x hx hx2
    exact hdis hx2 hx
  have hfilter_files : files.filter q = files.drop d := by
    conv_lhs => rw [← List.take_append_drop d files]
    rw [List.filter_append]
    have h1 : (files.take d).filter q = [] := by
      apply List.filter_eq_nil_iff.mpr
      intro a ha
      simp [hq, ha]
    have h2 : (files.drop d).filter q = files.drop d := by
      apply List.filter_eq_self.mpr
      intro a ha
      simp [hq, hdisj a ha]
    rw [h1, h2, List.nil_append]
  have hperm2 : (L.filter q).Perm (files.drop d) := by
    have hpf := (hperm.symm).filter q
    rw [hfilter_files] at hpf
    exact hpf
  have hs1 : List.Sorted LeS (List.insertionSort LeS (L.filter q)) :=
    List.sorted_insertionSort LeS (L.filter q)
  have hs2 : List.Sorted LeS (files.drop d) :=
    List.Pairwise.sublist (List.drop_sublist d files) hsorted
  have hp : (List.insertionSort LeS (L.filter q)).Perm (files.drop d) :=
    (List.perm_insertionSort LeS _).trans hperm2
  rw [hstep]
  exact List.eq_of_perm_of_sorted hp hs1 hs2

/-- C6 witness: three compressed archives, retention 1 — the survivor is
the lexicographically (= chronologically) greatest. -/
theorem pruneKeepsNewest_witness :
    getCompressedFiles (cleanOldBackupFiles 1
        [("app.log".toList, FileData.plain []),
         ("app-2021.log.gz".toList, FileData.gz []),
         ("app-2020.log.gz".toList, FileData.gz []),
         ("app-2022.log.gz".toList, FileData.gz [])] "app.log".toList) "app.log".toList
      = (getCompressedFiles
          [("app.log".toList, FileData.plain []),
           ("app-2021.log.gz".toList, FileData.gz []),
           ("app-2020.log.gz".toList, FileData.gz []),
           ("app-2022.log.gz".toList, FileData.gz [])] "app.log".toList).drop
          (((getCompressedFiles
              [("app.log".toList, FileData.plain []),
               ("app-2021.log.gz".toList, FileData.gz []),
               ("app-2020.log.gz".toList, FileData.gz [])
               , ("app-2022.log.gz".toList, FileData.gz [])] "app.log".toList).length : Int)
            - 1).toNat :=
  pruneKeepsNewest
    [("app.log".toList, FileData.plain []),
     ("app-2021.log.gz".toList, FileData.gz []),
     ("app-2020.log.gz".toList, FileData.gz []),
     ("app-2022.log.gz".toList, FileData.gz [])] "app.log".toList 1 (by decide)

end Logging
